import Mathlib

/-!
Shallow embedding, in Lean 4, of the comment-scraping backend in
`src/app.py` (an e-consultation sentiment dashboard).  Strings are
modelled as Lean `String`s (lists of Unicode code points); machine
floats whose attained values are exact small decimals are modelled as
rationals (`ℚ`); the SHA-256 content hash is modelled as an injective
function (the identity on its input string), since hash collisions are
outside the model.  Fallible or effectful boundaries (HTTP fetches, the
external model call, the statistical language detector) are modelled as
explicit function parameters.
-/

namespace EConsult

/-! ### Whitespace and case primitives -/

/-- Characters matched by Python's `\s` in `re.sub(r"\s+", " ", ·)`
(ASCII whitespace, the C1 whitespace controls and the Unicode space
separators). -/
def pyIsSpace (c : Char) : Bool :=
  let n := c.toNat
  (0x09 ≤ n ∧ n ≤ 0x0D) ∨ n = 0x20 ∨ (0x1C ≤ n ∧ n ≤ 0x1F) ∨ n = 0x85 ∨
    n = 0xA0 ∨ n = 0x1680 ∨ (0x2000 ≤ n ∧ n ≤ 0x200A) ∨ n = 0x2028 ∨
    n = 0x2029 ∨ n = 0x202F ∨ n = 0x205F ∨ n = 0x3000

/-- Collapse every run of consecutive `' '` characters to a single `' '`. -/
def squeezeSpaces : List Char → List Char
  | [] => []
  | [c] => [c]
  | a :: b :: rest =>
    if a = ' ' ∧ b = ' ' then squeezeSpaces (b :: rest)
    else a :: squeezeSpaces (b :: rest)

/-- Strip leading and trailing `' '` characters. -/
def stripSpaces (cs : List Char) : List Char :=
  ((cs.dropWhile (· = ' ')).reverse.dropWhile (· = ' ')).reverse

/-- Model of `re.sub(r"\s+", " ", s).strip()` on the character list: each maximal
whitespace run becomes one space (map every whitespace character to `' '`,
then collapse runs), then leading/trailing space is stripped. -/
def normWsL (cs : List Char) : List Char :=
  stripSpaces (squeezeSpaces (cs.map fun c => if pyIsSpace c then ' ' else c))

/-- Model of `normalize_whitespace` (src/app.py:210): collapse all whitespace runs
to single spaces and trim. -/
def normalize_whitespace (s : String) : String :=
  (normWsL s.toList).asString

/-- Python `str.lower()`, modelled per character; the texts in play are
ASCII-cased, for which `Char.toLower` agrees with Python. -/
def pyLowerL (cs : List Char) : List Char :=
  cs.map Char.toLower

/-- Python `str.lower()` on a `String`. -/
def pyLower (s : String) : String :=
  (pyLowerL s.toList).asString

/-! ### Content hash and comment identity -/

/-- Model of `text_hash` (src/app.py:214): SHA-256 hex digest of the UTF-8 bytes.
Modelled as an injective content hash, represented by the hashed string
itself — SHA-256 collisions are outside the model, and no claim depends
on the digest's spelling, only on equality of digests. -/
def text_hash (value : String) : String :=
  value

/-- Model of `make_comment_key` (src/app.py:600): the identity hash of a record —
the hash of the case-lowered, whitespace-normalized author and text
joined with a `"|"` separator. -/
def make_comment_key (author text : String) : String :=
  text_hash (pyLower (normalize_whitespace author) ++ "|" ++ pyLower (normalize_whitespace text))

/-! ### Heuristic sentiment classifier (src/app.py:349-402) -/

/-- The set `POSITIVE_WORDS` (src/app.py:97). -/
def POSITIVE_WORDS : List String :=
  ["good", "great", "excellent", "awesome", "amazing", "helpful", "best",
   "love", "support", "thank", "thanks", "semma", "vera", "level",
   "verithanam", "super", "nice", "improve", "improved", "useful"]

/-- The set `NEGATIVE_WORDS` (src/app.py:120). -/
def NEGATIVE_WORDS : List String :=
  ["bad", "worst", "poor", "waste", "useless", "issue", "problem", "bug",
   "hate", "slow", "broken", "mokkai", "not", "spam", "fake", "difficult",
   "error", "dislike", "delay"]

/-- ASCII letter, the character class `[a-zA-Z]`. -/
def asciiAlpha (c : Char) : Bool :=
  (Char.ofNat 0x61 ≤ c ∧ c ≤ Char.ofNat 0x7A) ∨ (Char.ofNat 0x41 ≤ c ∧ c ≤ Char.ofNat 0x5A)

/-- Character class of `re.findall(r"[a-zA-Z']+", ·)`: ASCII letters and
the apostrophe. -/
def tokenChar (c : Char) : Bool :=
  asciiAlpha c ∨ c = Char.ofNat 0x27

/-- One step of `runsBy`: extend the current run on a matching character,
close it off (when non-empty) on a non-matching one. -/
def runsByStep (p : Char → Bool) (c : Char) (acc : List Char × List (List Char)) :
    List Char × List (List Char) :=
  if p c then (c :: acc.1, acc.2)
  else ([], if acc.1.isEmpty then acc.2 else acc.1 :: acc.2)

/-- The maximal runs of characters satisfying `p`, in order — the model of
`re.findall` for a one-character-class pattern. -/
def runsBy (p : Char → Bool) (cs : List Char) : List (List Char) :=
  let r := cs.foldr (runsByStep p) ([], [])
  if r.1.isEmpty then r.2 else r.1 :: r.2

/-- The number of positions of `hay` at which `needle` starts.  Models
Python's non-overlapping `str.count`: none of the counted needles (emoji,
single code points or a heart plus variation selector) can overlap an
occurrence of itself, so position counting and non-overlapping counting
agree. -/
def countOccur (needle : List Char) : List Char → Nat
  | [] => 0
  | c :: rest =>
    (if needle.isPrefixOf (c :: rest) then 1 else 0) + countOccur needle rest

/-- The positively weighted emoji of src/app.py:374. -/
def posEmoji : List String := ["😀", "😄", "😊", "👍", "❤️", "❤", "🔥", "👏", "🙏"]

/-- The negatively weighted emoji of src/app.py:375. -/
def negEmoji : List String := ["😡", "😞", "👎", "💔", "😢", "😭"]

/-- Word-constituent characters for the regex word boundary `\b`
(`[a-zA-Z0-9_]`; the inputs in play have no further Unicode word
characters). -/
def wordChar (c : Char) : Bool :=
  asciiAlpha c ∨ c.isDigit ∨ c = Char.ofNat 0x5F

/-- Holds when the scan position sits at a `\b` boundary before a letter:
at the start of the text or after a non-word character. -/
def boundaryBefore : Option Char → Bool
  | none => true
  | some p => ¬ wordChar p

/-- Holds when the text continuing after a matched word satisfies the
closing `\b`: end of text or a non-word character. -/
def boundaryAfter : List Char → Bool
  | [] => true
  | c :: _ => ¬ wordChar c

/-- Whether one of `seconds` matches at the head of `tail` followed by a
`\b` boundary. -/
def secondWordAt (seconds : List (List Char)) (tail : List Char) : Bool :=
  seconds.any fun w => w.isPrefixOf tail ∧ boundaryAfter (tail.drop w.length)

/-- Whether `\b(first)\s+(second)\b` matches with the `(first)` group
starting exactly at the head of `cs` (the preceding character being
`prev`).  The `\s+` run is taken maximal, which is equivalent to the
regex's backtracking because every second-group word starts with a
letter. -/
def negMatchHere (firsts seconds : List (List Char)) (prev : Option Char) (cs : List Char) : Bool :=
  boundaryBefore prev ∧
    firsts.any fun w =>
      w.isPrefixOf cs ∧
        let rest := (cs.drop w.length)
        ¬ (rest.takeWhile pyIsSpace).isEmpty ∧
          secondWordAt seconds (rest.dropWhile pyIsSpace)

/-- Model of `re.search` for the negation patterns of src/app.py:377-380: scan
every position of the text for a `\b(first)\s+(second)\b` match. -/
def negSearch (firsts seconds : List (List Char)) : Option Char → List Char → Bool
  | _, [] => false
  | prev, c :: rest =>
    negMatchHere firsts seconds prev (c :: rest) ∨ negSearch firsts seconds (some c) rest

/-- First-group alternatives `(not|no|never)` of both negation rules. -/
def negFirstWords : List (List Char) := ["not".toList, "no".toList, "never".toList]

/-- Second group `(good|great|excellent|super|nice)` of the rule that adds
negative weight (src/app.py:377). -/
def negRuleGoodWords : List (List Char) :=
  ["good".toList, "great".toList, "excellent".toList, "super".toList, "nice".toList]

/-- Second group `(bad|poor|waste|worst)` of the rule that adds positive
weight (src/app.py:379). -/
def negRuleBadWords : List (List Char) :=
  ["bad".toList, "poor".toList, "waste".toList, "worst".toList]

/-- The table `DEFAULT_SENTIMENT_SCORE` (src/app.py:156). -/
def DEFAULT_SENTIMENT_SCORE (label : String) : ℚ :=
  if label = "positive" then 62/100
  else if label = "negative" then 62/100
  else if label = "neutral" then 50/100
  else 0

/-- The `(pos, neg)` scores accumulated by `heuristic_sentiment`
(src/app.py:364-380) over the lowered text: one point per token found in
the word sets, half a point per weighted emoji occurrence, and one point
added by each matching negation rule (to `neg` for a "not good"-class
phrase, to `pos` for a "not bad"-class phrase). -/
def sentimentCounts (lowered : List Char) : ℚ × ℚ :=
  let words := runsBy tokenChar lowered
  let pos0 : ℚ := words.foldl (fun acc w => if (POSITIVE_WORDS.map String.toList).contains w then acc + 1 else acc) 0
  let neg0 : ℚ := words.foldl (fun acc w => if (NEGATIVE_WORDS.map String.toList).contains w then acc + 1 else acc) 0
  let pos1 : ℚ := pos0 + ((posEmoji.map (fun e => countOccur e.toList lowered)).foldl (· + ·) 0 : ℕ) * (1/2)
  let neg1 : ℚ := neg0 + ((negEmoji.map (fun e => countOccur e.toList lowered)).foldl (· + ·) 0 : ℕ) * (1/2)
  let neg2 : ℚ := if negSearch negFirstWords negRuleGoodWords none lowered then neg1 + 1 else neg1
  let pos2 : ℚ := if negSearch negFirstWords negRuleBadWords none lowered then pos1 + 1 else pos1
  (pos2, neg2)

/-- The difference `delta = pos - neg` (src/app.py:382). -/
def sentimentDelta (lowered : List Char) : ℚ :=
  (sentimentCounts lowered).1 - (sentimentCounts lowered).2

/-- The confidence score `min(0.99, 0.55 + min(abs(delta), 5.0) * 0.08)`
of src/app.py:395. -/
def sentimentConfidence (delta : ℚ) : ℚ :=
  min (99/100) (55/100 + min |delta| 5 * (8/100))

/-- Character class `[a-zA-Zऀ-ൿ]` (src/app.py:389): the
alphabetic-content test deciding neutral versus unknown. -/
def neutralAlphaChar (c : Char) : Bool :=
  asciiAlpha c ∨ (0x900 ≤ c.toNat ∧ c.toNat ≤ 0xD7F)

/-- Model of `heuristic_sentiment` (src/app.py:349-402), returning the
`(sentiment, sentiment_score)` pair.  The source's final
`round(score, 4)` is the identity on every value this function attains
(exact multiples of 1/100) and is therefore not repeated here. -/
def heuristic_sentiment (text : String) : String × ℚ :=
  let cleaned := normWsL text.toList
  if cleaned.isEmpty then ("unknown", DEFAULT_SENTIMENT_SCORE "unknown")
  else
    let lowered := pyLowerL cleaned
    if lowered.length ≤ 3 then ("unknown", DEFAULT_SENTIMENT_SCORE "unknown")
    else
      let delta := sentimentDelta lowered
      let sentiment :=
        if delta > 35/100 then "positive"
        else if delta < -(35/100) then "negative"
        else if lowered.any neutralAlphaChar then "neutral"
        else "unknown"
      let score :=
        if sentiment = "positive" ∨ sentiment = "negative" then sentimentConfidence delta
        else DEFAULT_SENTIMENT_SCORE sentiment
      (sentiment, score)

/-! ### Normalizer: summary, junk filter, placeholder authors, mojibake -/

/-- The back-off step `cut.rsplit(" ", 1)[0]` of `short_summary`
(src/app.py:326): everything strictly before the last space.  The
surrounding function, modelled below at the source's only used bound
the default `max_chars = 220`: return the whitespace-normalized text
verbatim when it fits, otherwise cut it to 217 characters, back off to
just before the last space of the cut when the cut contains one
(`cut.rsplit(" ", 1)[0]`), and append `"..."`. -/
def dropFromLastSpace (cs : List Char) : List Char :=
  ((cs.reverse.dropWhile (· ≠ ' ')).drop 1).reverse

/-- Model of `short_summary` (src/app.py:320), see `dropFromLastSpace`. -/
def short_summary (text : String) : String :=
  let cleaned := normWsL text.toList
  if cleaned.length ≤ 220 then cleaned.asString
  else
    let cut := cleaned.take (220 - 3)
    let cut2 := if cut.contains ' ' then dropFromLastSpace cut else cut
    (cut2 ++ "...".toList).asString

/-- The set `PLACEHOLDER_AUTHORS` (src/app.py:142). -/
def PLACEHOLDER_AUTHORS : List String :=
  ["", "unknown", "default icon for user", "home", "user"]

/-- Model of `is_placeholder_author` (src/app.py:248). -/
def is_placeholder_author (author : String) : Bool :=
  PLACEHOLDER_AUTHORS.contains (pyLower (normalize_whitespace author))

/-- Consume a literal at the head of the text (one regex literal). -/
def eatLit (lit cs : List Char) : Option (List Char) :=
  if lit.isPrefixOf cs then some (cs.drop lit.length) else none

/-- Consume `\s+`: at least one whitespace character. -/
def eatWsPlus (cs : List Char) : Option (List Char) :=
  if (cs.takeWhile pyIsSpace).isEmpty then none else some (cs.dropWhile pyIsSpace)

/-- Consume `\(\d+\)`: a parenthesized run of at least one digit. -/
def eatParenDigits (cs : List Char) : Option (List Char) := do
  let r1 ← eatLit ['('] cs
  let digits := r1.takeWhile Char.isDigit
  if digits.isEmpty then none else eatLit [')'] (r1.dropWhile Char.isDigit)

/-- Pattern `JUNK_PATTERNS[0]` (src/app.py:151),
`^like\s*\(\d+\)\s*dislike\s*\(\d+\)` with `re.IGNORECASE`, applied to
the lowered text (equivalent for this ASCII pattern). -/
def junkLikeDislike (lowered : List Char) : Bool :=
  (do
    let r1 ← eatLit "like".toList lowered
    let r2 ← eatParenDigits (r1.dropWhile pyIsSpace)
    let r3 ← eatLit "dislike".toList (r2.dropWhile pyIsSpace)
    eatParenDigits (r3.dropWhile pyIsSpace)).isSome

/-- Pattern `JUNK_PATTERNS[1]` (src/app.py:152), `facebook\s+twitter` with
`re.IGNORECASE`, searched anywhere in the lowered text. -/
def junkFacebookTwitter : List Char → Bool
  | [] => false
  | c :: rest =>
    (do
      let r1 ← eatLit "facebook".toList (c :: rest)
      let r2 ← eatWsPlus r1
      eatLit "twitter".toList r2).isSome
    ∨ junkFacebookTwitter rest

/-- Pattern `JUNK_PATTERNS[2]` (src/app.py:153), `^report\s+spam` with
`re.IGNORECASE`. -/
def junkReportSpam (lowered : List Char) : Bool :=
  (do
    let r1 ← eatLit "report".toList lowered
    let r2 ← eatWsPlus r1
    eatLit "spam".toList r2).isSome

/-- Model of `is_junk_or_boilerplate` (src/app.py:253): empty after normalization,
shorter than 3 characters, or matching one of the `JUNK_PATTERNS`. -/
def is_junk_or_boilerplate (text : String) : Bool :=
  let cleaned := normWsL text.toList
  if cleaned.isEmpty then true
  else if cleaned.length < 3 then true
  else
    let lowered := pyLowerL cleaned
    junkLikeDislike lowered ∨ junkFacebookTwitter lowered ∨ junkReportSpam lowered

/-- Model of `cleaned.encode("latin1")`: each code point below 256 becomes one
byte; a higher code point raises, modelled as `none`. -/
def latin1Encode : List Char → Option (List Nat)
  | [] => some []
  | c :: rest =>
    if c.toNat < 256 then (latin1Encode rest).map (c.toNat :: ·) else none

/-- Model of `bytes.decode("utf-8")` as a strict UTF-8 decoder: rejects stray or
missing continuation bytes, overlong encodings, surrogates and code
points above `0x10FFFF`, as CPython's strict decoder does. -/
def utf8Decode : List Nat → Option (List Char)
  | [] => some []
  | b :: rest =>
    if b < 0x80 then (utf8Decode rest).map (Char.ofNat b :: ·)
    else if b < 0xC2 then none
    else if b ≤ 0xDF then
      match rest with
      | b2 :: rest2 =>
        if 0x80 ≤ b2 ∧ b2 ≤ 0xBF then
          (utf8Decode rest2).map (Char.ofNat ((b - 0xC0) * 0x40 + (b2 - 0x80)) :: ·)
        else none
      | [] => none
    else if b ≤ 0xEF then
      match rest with
      | b2 :: b3 :: rest3 =>
        let lo2 := if b = 0xE0 then 0xA0 else 0x80
        let hi2 := if b = 0xED then 0x9F else 0xBF
        if (lo2 ≤ b2 ∧ b2 ≤ hi2) ∧ (0x80 ≤ b3 ∧ b3 ≤ 0xBF) then
          (utf8Decode rest3).map
            (Char.ofNat ((b - 0xE0) * 0x1000 + (b2 - 0x80) * 0x40 + (b3 - 0x80)) :: ·)
        else none
      | _ => none
    else if b ≤ 0xF4 then
      match rest with
      | b2 :: b3 :: b4 :: rest4 =>
        let lo2 := if b = 0xF0 then 0x90 else 0x80
        let hi2 := if b = 0xF4 then 0x8F else 0xBF
        if (lo2 ≤ b2 ∧ b2 ≤ hi2) ∧ (0x80 ≤ b3 ∧ b3 ≤ 0xBF) ∧ (0x80 ≤ b4 ∧ b4 ≤ 0xBF) then
          (utf8Decode rest4).map
            (Char.ofNat ((b - 0xF0) * 0x40000 + (b2 - 0x80) * 0x1000 +
              (b3 - 0x80) * 0x40 + (b4 - 0x80)) :: ·)
        else none
      | _ => none
    else none

/-- Model of `fix_mojibake` (src/app.py:265-275): normalize whitespace; when one
of the tell-tale artifact characters `Ã`, `Â`, `â` is present, re-decode
the latin-1 bytes as UTF-8 and normalize again; on any failure return
the normalized input unchanged. -/
def fix_mojibake (text : String) : String :=
  let cleaned := normWsL text.toList
  if cleaned.isEmpty then ""
  else if cleaned.contains (Char.ofNat 0xC3) ∨ cleaned.contains (Char.ofNat 0xC2) ∨
      cleaned.contains (Char.ofNat 0xE2) then
    match latin1Encode cleaned with
    | none => cleaned.asString
    | some bs =>
      match utf8Decode bs with
      | none => cleaned.asString
      | some repaired => (normWsL repaired).asString
  else cleaned.asString

/-! ### Sentiment label and language-name normalization -/

/-- Whether `needle` occurs as a contiguous substring of the text: the
Python `in` operator on strings. -/
def hasInfix (needle : List Char) : List Char → Bool
  | [] => needle.isEmpty
  | c :: rest => needle.isPrefixOf (c :: rest) ∨ hasInfix needle rest

/-- Model of `normalize_sentiment` (src/app.py:225-245): canonical labels pass
through, the alias table maps `pos`/`neg`/`neu`/`label_0..2`, then
substring matching, and everything else becomes `unknown`. -/
def normalize_sentiment (raw : String) : String :=
  let label := pyLower (normalize_whitespace raw)
  if label = "positive" ∨ label = "negative" ∨ label = "neutral" ∨ label = "unknown" then label
  else if label = "pos" then "positive"
  else if label = "neg" then "negative"
  else if label = "neu" then "neutral"
  else if label = "label_0" then "negative"
  else if label = "label_1" then "neutral"
  else if label = "label_2" then "positive"
  else if hasInfix "pos".toList label.toList then "positive"
  else if hasInfix "neg".toList label.toList then "negative"
  else if hasInfix "neu".toList label.toList then "neutral"
  else "unknown"

/-- The table `LANGUAGE_CODE_MAP` (src/app.py:69). -/
def LANGUAGE_CODE_MAP : List (String × String) :=
  [("en", "English"), ("hi", "Hindi"), ("ta", "Tamil"), ("te", "Telugu"),
   ("ml", "Malayalam"), ("kn", "Kannada"), ("mr", "Marathi"), ("gu", "Gujarati"),
   ("bn", "Bengali"), ("pa", "Punjabi"), ("or", "Odia"), ("ur", "Urdu")]

/-- Python `str.title()` on ASCII letters: the first letter of each
letter run is uppercased, the rest lowercased. -/
def pyTitleAux : Bool → List Char → List Char
  | _, [] => []
  | prevAlpha, c :: rest =>
    let c2 := if asciiAlpha c then (if prevAlpha then Char.toLower c else Char.toUpper c) else c
    c2 :: pyTitleAux (asciiAlpha c) rest

/-- Python `str.title()` on a character list. -/
def pyTitleL (cs : List Char) : List Char :=
  pyTitleAux false cs

/-- Model of `normalize_language_name` (src/app.py:287-297). -/
def normalize_language_name (raw : String) : String :=
  let value := normalize_whitespace raw
  if value = "" then "Unknown"
  else
    match LANGUAGE_CODE_MAP.lookup (pyLower value) with
    | some name => name
    | none =>
      let titled := (pyTitleL value.toList).asString
      if (LANGUAGE_CODE_MAP.map Prod.snd).contains titled then titled else value

/-! ### Comment records, merge and persistence -/

/-- A comment record as the pipeline handles it: the dictionary with the
`CSV_FIELDS` keys (src/app.py:163). -/
structure Row where
  author : String
  timestamp : String
  text : String
  lang : String
  sentiment : String
  sentiment_score : ℚ
  summary : String
deriving DecidableEq, Repr

/-- The identity hash of a record (§3 of the spec): `make_comment_key`
of its author and text. -/
def rowKey (r : Row) : String :=
  make_comment_key r.author r.text

/-- The first-occurrence-per-key filter inside `merge_with_existing`
(src/app.py:725-736): walk the concatenated list, keep a row whose
identity hash is unseen and record the hash, skip the rest. -/
def dedupByKey : List Row → List String → List Row
  | [], _ => []
  | r :: rest, seen =>
    if rowKey r ∈ seen then dedupByKey rest seen
    else r :: dedupByKey rest (rowKey r :: seen)

/-- Model of `merge_with_existing` (src/app.py:725): iterate `new_rows` then
`existing_rows`, keeping the first occurrence per identity hash. -/
def merge_with_existing (new_rows existing_rows : List Row) : List Row :=
  dedupByKey (new_rows ++ existing_rows) []

/-- The value the `sentiment_score` CSV cell denotes after
`f"{safe_float(...):.4f}"` (src/app.py:689): the score rounded to four
decimal places (ties modelled half-up; every score the pipeline writes
is an exact multiple of `1/10000`, for which no rounding occurs). -/
def formatScore4 (q : ℚ) : ℚ :=
  ((⌊q * 10000 + 1/2⌋ : ℤ) : ℚ) / 10000

/-- One row as `save_rows_to_csv` (src/app.py:676-692) writes it.  The
`csv` module quotes and unquotes each cell so that every string cell
round-trips verbatim through the file; a written row is therefore
modelled by its field tuple, with the two value-changing cells applied:
`normalize_sentiment` on the label and the 4-decimal formatting of the
score. -/
def saveRowToCsv (r : Row) : Row :=
  { author := r.author
    timestamp := r.timestamp
    text := r.text
    lang := r.lang
    sentiment := normalize_sentiment r.sentiment
    sentiment_score := formatScore4 r.sentiment_score
    summary := r.summary }

/-- Model of `save_rows_to_csv` (src/app.py:676): the rows as written. -/
def save_rows_to_csv (rows : List Row) : List Row :=
  rows.map saveRowToCsv

/-- Model of `load_rows_from_csv` (src/app.py:695-722) on a well-formed written
table: every column is present, so each `row.get(field, default)`
returns the written cell and the loaded row is the written field tuple
(the numeric value of the `sentiment_score` cell). -/
def loadRowFromCsv (r : Row) : Row :=
  { author := r.author
    timestamp := r.timestamp
    text := r.text
    lang := r.lang
    sentiment := r.sentiment
    sentiment_score := r.sentiment_score
    summary := r.summary }

/-- Model of `load_rows_from_csv` (src/app.py:695) of a written table. -/
def load_rows_from_csv (rows : List Row) : List Row :=
  rows.map loadRowFromCsv

/-- The `{sentiment, sentiment_score, lang, summary}` result of
`analyze_comment` (src/app.py:462-493).  `analyze_comment` reads only
the cleaned text (its cache is keyed by the text's content hash and the
external model is called on the text alone), so it is modelled as an
arbitrary function of the text. -/
structure Analysis where
  sentiment : String
  sentiment_score : ℚ
  lang : String
  summary : String

/-- Model of `normalize_rows` (src/app.py:645-673), parametrized by the
`analyze_comment` function: repair and filter each row's text, default
junk/placeholder authors to `"Unknown"`, and rebuild every analysis
field (`lang`, `sentiment`, `sentiment_score`, `summary`) from
`analyze text` — the incoming row's stored analysis fields are never
read. -/
def normalize_rows (analyze : String → Analysis) (rows : List Row) : List Row :=
  rows.filterMap fun row =>
    let text := fix_mojibake row.text
    if is_junk_or_boilerplate text then none
    else
      let author0 := fix_mojibake row.author
      let author1 := if author0 = "" then "Unknown" else author0
      let author := if is_placeholder_author author1 then "Unknown" else author1
      let timestamp := fix_mojibake row.timestamp
      let analysis := analyze text
      some
        { author := author
          timestamp := timestamp
          text := text
          lang :=
            (let v := normalize_language_name analysis.lang
             if v = "" then "Unknown" else v)
          sentiment := normalize_sentiment analysis.sentiment
          sentiment_score := analysis.sentiment_score
          summary := short_summary analysis.summary }

/-! ### Paginated scraping (src/app.py:604-642) -/

/-- A raw scraped record before analysis: the
`{author, timestamp, text}` dictionaries `extract_comments_from_html`
produces. -/
structure RawRow where
  author : String
  timestamp : String
  text : String
deriving DecidableEq, Repr

/-- The identity hash of a raw record, as the scrape loop computes it
(src/app.py:632). -/
def rawKey (r : RawRow) : String :=
  make_comment_key r.author r.text

/-- The pagination tokens tried for a page index (src/app.py:613):
`"0"` for page 0, otherwise the composite `"0,N"` token and then the
plain `"N"` token. -/
def pageTokens (pageIndex : Nat) : List String :=
  if pageIndex = 0 then ["0"] else ["0," ++ toString pageIndex, toString pageIndex]

/-- The token sub-loop of src/app.py:616-621: fetch each candidate token
in order — `oracle t` abstracts `extract_comments_from_html
(fetch_ajax_page source_url view_params t)` for the fixed source — and
stop at the first non-empty extraction.  Returns the page's rows and the
fetch log extended by the tokens actually requested. -/
def fetchFirstNonEmpty (oracle : String → List RawRow) :
    List String → List String → List RawRow × List String
  | [], fetched => ([], fetched)
  | t :: rest, fetched =>
    let extracted := oracle t
    if extracted.isEmpty then fetchFirstNonEmpty oracle rest (fetched ++ [t])
    else (extracted, fetched ++ [t])

/-- The within-run dedup of src/app.py:630-637: append each row whose
identity hash is new, recording the hash and counting the newly added
rows. -/
def insertNewRows : List RawRow → List RawRow → List String → Nat →
    List RawRow × List String × Nat
  | [], collected, seen, newCount => (collected, seen, newCount)
  | r :: rest, collected, seen, newCount =>
    if rawKey r ∈ seen then insertNewRows rest collected seen newCount
    else insertNewRows rest (collected ++ [r]) (seen ++ [rawKey r]) (newCount + 1)

/-- The mutable state of the pagination loop, plus a log of the
pagination tokens fetched (to state which pages were ever requested). -/
structure ScrapeState where
  collected : List RawRow
  seenKeys : List String
  emptyStreak : Nat
  fetched : List String
deriving DecidableEq, Repr

/-- The `for page_index in range(MAX_PAGES_PER_SCRAPE)` loop of
src/app.py:612-641, with `remaining` the number of page indices the
range still holds.  A page with no extracted rows increments the empty
streak and aborts once `page_index > 0` and the streak reaches 2; a page
with rows resets the streak, deduplicates into the collection and aborts
when `page_index > 0` and no row was new. -/
def scrapeLoop (oracle : String → List RawRow) : Nat → Nat → ScrapeState → ScrapeState
  | 0, _, st => st
  | remaining + 1, pageIndex, st =>
    let fr := fetchFirstNonEmpty oracle (pageTokens pageIndex) st.fetched
    if fr.1.isEmpty then
      let streak := st.emptyStreak + 1
      if 0 < pageIndex ∧ 2 ≤ streak then ⟨st.collected, st.seenKeys, streak, fr.2⟩
      else scrapeLoop oracle remaining (pageIndex + 1) ⟨st.collected, st.seenKeys, streak, fr.2⟩
    else
      let ins := insertNewRows fr.1 st.collected st.seenKeys 0
      if 0 < pageIndex ∧ ins.2.2 = 0 then ⟨ins.1, ins.2.1, 0, fr.2⟩
      else scrapeLoop oracle remaining (pageIndex + 1) ⟨ins.1, ins.2.1, 0, fr.2⟩

/-- Model of `scrape_comments_paginated` (src/app.py:604): run the pagination
loop from page 0 with everything empty.  The root-page fetch and
`extract_view_params` preamble either raises (no loop runs) or fixes
`view_params`; the per-token fetch is the `oracle`. -/
def scrape_comments_paginated (oracle : String → List RawRow) (maxPages : Nat) : ScrapeState :=
  scrapeLoop oracle maxPages 0 ⟨[], [], 0, []⟩

/-! ### Per-source runtime state and refresh (src/app.py:774-838) -/

/-- The per-source runtime state `_site_states[source_id]`
(src/app.py:182-191), without the constant `source_name`. -/
structure SiteState where
  comments : List Row
  lastUpdated : Option String
  inProgress : Bool
  lastError : Option String
deriving DecidableEq, Repr

/-- What `scrape_and_analyze_source` came to inside a refresh: the merged
rows and the completion time on success, or the exception message. -/
inductive RefreshOutcome
  | ok (mergedRows : List Row) (now : String)
  | error (msg : String)

/-- Model of `refresh_site_state` (src/app.py:774-793) as a state transformer:
the entry critical section returns unchanged if a refresh is already in
progress, otherwise sets the in-progress flag and clears the error; the
`try` body installs the merged rows, timestamp and a clear error on
success, or records the message on failure keeping comments and
timestamp; the `finally` block clears the in-progress flag on every exit
path. -/
def refresh_site_state (outcome : RefreshOutcome) (s : SiteState) : SiteState :=
  if s.inProgress then s
  else
    let entered : SiteState := { s with inProgress := true, lastError := none }
    let afterTry : SiteState :=
      match outcome with
      | .ok rows now => { entered with comments := rows, lastUpdated := some now, lastError := none }
      | .error msg => { entered with lastError := some msg }
    { afterTry with inProgress := false }

/-! ### Refresh triggering as an interleaving model (src/app.py:828-838)

Each `with _state_lock:` block of the source is one atomic step; steps
from different threads interleave arbitrarily.  `pendingThreads` counts
background threads spawned by a trigger that have not yet executed the
entry critical section of `refresh_site_state`; `activeRefreshes` counts
threads past that entry (refreshing right now). -/

structure OrchState where
  inProgress : Bool
  pendingThreads : Nat
  activeRefreshes : Nat
deriving DecidableEq, Repr

/-- Model of `trigger_refresh_if_needed` (src/app.py:828-838): inside the lock,
return `false` when a refresh is in progress, or when neither forced nor
stale (`stale` abstracts `should_refresh(last_updated)`); otherwise
spawn the background thread — the flag is NOT set here — and return
`true`. -/
def trigger_refresh_if_needed (force stale : Bool) (s : OrchState) : Bool × OrchState :=
  if s.inProgress then (false, s)
  else if ¬ force ∧ ¬ stale then (false, s)
  else (true, { s with pendingThreads := s.pendingThreads + 1 })

/-- The entry critical section of `refresh_site_state`
(src/app.py:775-780) executed by one spawned thread: with the lock held,
a thread that finds the flag set returns at once; otherwise it sets the
flag and starts refreshing. -/
def threadEnterRefresh (s : OrchState) : OrchState :=
  if s.pendingThreads = 0 then s
  else if s.inProgress then { s with pendingThreads := s.pendingThreads - 1 }
  else
    { s with
      pendingThreads := s.pendingThreads - 1
      activeRefreshes := s.activeRefreshes + 1
      inProgress := true }

/-- The `finally` critical section of `refresh_site_state`
(src/app.py:791-793) executed by one active thread: clear the flag and
finish. -/
def threadFinishRefresh (s : OrchState) : OrchState :=
  if s.activeRefreshes = 0 then s
  else { s with activeRefreshes := s.activeRefreshes - 1, inProgress := false }

/-- One atomic step of the interleaving: a trigger call (of either HTTP
endpoint), a spawned thread entering the refresh, or an active thread
finishing. -/
inductive OrchEvent
  | trigger (force stale : Bool)
  | enter
  | finish

/-- Apply one event. -/
def orchStep (e : OrchEvent) (s : OrchState) : OrchState :=
  match e with
  | .trigger force stale => (trigger_refresh_if_needed force stale s).2
  | .enter => threadEnterRefresh s
  | .finish => threadFinishRefresh s

/-- Run an arbitrary interleaving of events. -/
def orchRun (events : List OrchEvent) (s : OrchState) : OrchState :=
  events.foldl (fun st e => orchStep e st) s

/-- The startup state: idle, no threads. -/
def orchInit : OrchState :=
  ⟨false, 0, 0⟩

/-! ### Concrete fetch scenarios used to settle the pagination claim -/

/-- A raw record distinct in identity from `rawB` and `rawC`. -/
def rawA : RawRow :=
  ⟨"Asha", "1 day ago", "Great initiative, very helpful"⟩

/-- A raw record distinct in identity from `rawA` and `rawC`. -/
def rawB : RawRow :=
  ⟨"Bina", "2 days ago", "Please fix the slow portal"⟩

/-- A raw record distinct in identity from `rawA` and `rawB`. -/
def rawC : RawRow :=
  ⟨"Chandu", "3 days ago", "Looking forward to the next episode"⟩

/-- The fetch oracle of the claimed stopping scenario: pages 0, 1 and 2
each yield one fresh record (on their composite token), pages from 3 on
are empty. -/
def oracleGood (t : String) : List RawRow :=
  if t = "0" then [rawA]
  else if t = "0,1" then [rawB]
  else if t = "0,2" then [rawC]
  else []

/-- A fetch oracle whose page 1 yields only a record already seen on
page 0, while page 2 still has a fresh record. -/
def oracleDup (t : String) : List RawRow :=
  if t = "0" then [rawA]
  else if t = "0,1" then [rawA]
  else if t = "0,2" then [rawB]
  else []

/-! ## Theorems -/

/-! ### C1: comment identity -/

/-- Splitting a list at a separator element that occurs in neither left
part is unambiguous. -/
theorem sep_append_inj {α : Type} (c : α) (xs : List α) :
    ∀ (xs2 ys ys2 : List α), c ∉ xs → c ∉ xs2 →
      (xs ++ c :: ys = xs2 ++ c :: ys2 ↔ xs = xs2 ∧ ys = ys2) := by
  induction xs with
  | nil =>
    intro xs2 ys ys2 _ h2
    cases xs2 with
    | nil => simp
    | cons a2 r2 =>
      simp only [List.nil_append, List.cons_append, List.cons.injEq]
      constructor
      · rintro ⟨rfl, _⟩
        exact absurd (List.mem_cons_self _ _) h2
      · rintro ⟨h, _⟩
        cases h
  | cons a r ih =>
    intro xs2 ys ys2 h1 h2
    cases xs2 with
    | nil =>
      simp only [List.cons_append, List.nil_append, List.cons.injEq]
      constructor
      · rintro ⟨rfl, _⟩
        exact absurd (List.mem_cons_self _ _) h1
      · rintro ⟨h, _⟩
        cases h
    | cons a2 r2 =>
      simp only [List.cons_append, List.cons.injEq]
      rw [ih r2 ys ys2 (fun h => h1 (List.mem_cons_of_mem _ h))
        (fun h => h2 (List.mem_cons_of_mem _ h))]
      simp only [and_assoc]

/-- C1, counterexample: the normalized (author, text) pairs
`("a|b", "c")` and `("a", "b|c")` differ, yet `make_comment_key` gives
both records the same identity hash (the `"|"` join is ambiguous), so
"two records whose normalized (author, text) pairs differ have distinct
identities" fails on the code. -/
theorem c1_distinct_pairs_same_identity :
    make_comment_key "a|b" "c" = make_comment_key "a" "b|c" ∧
      ¬ (pyLower (normalize_whitespace "a|b") = pyLower (normalize_whitespace "a") ∧
         pyLower (normalize_whitespace "c") = pyLower (normalize_whitespace "b|c")) := by
  decide

/-- C1 (as amended): identity is a pure function of the case-lowered,
whitespace-normalized (author, text) pair — equal normalized pairs give
equal identity hashes, and `identity(" Bob ", "Hi there") =
identity("bob", "hi   there")`; moreover, whenever neither normalized
author contains the join character `'|'`, two records have the same
identity hash iff their normalized pairs coincide (pairs whose
`"|"`-joins collide, such as author `"a|b"` with text `"c"` against
author `"a"` with text `"b|c"`, are the only exception). -/
theorem c1_identity_of_normalized_pair :
    (∀ a1 t1 a2 t2 : String,
        pyLower (normalize_whitespace a1) = pyLower (normalize_whitespace a2) →
        pyLower (normalize_whitespace t1) = pyLower (normalize_whitespace t2) →
        make_comment_key a1 t1 = make_comment_key a2 t2) ∧
    (∀ a1 t1 a2 t2 : String,
        '|' ∉ (pyLower (normalize_whitespace a1)).data →
        '|' ∉ (pyLower (normalize_whitespace a2)).data →
        (make_comment_key a1 t1 = make_comment_key a2 t2 ↔
          pyLower (normalize_whitespace a1) = pyLower (normalize_whitespace a2) ∧
          pyLower (normalize_whitespace t1) = pyLower (normalize_whitespace t2))) ∧
    make_comment_key " Bob " "Hi there" = make_comment_key "bob" "hi   there" := by
  refine ⟨?_, ?_, by decide⟩
  · intro a1 t1 a2 t2 h1 h2
    unfold make_comment_key text_hash
    rw [h1, h2]
  · intro a1 t1 a2 t2 h1 h2
    unfold make_comment_key text_hash
    rw [String.ext_iff, String.data_append, String.data_append,
      String.data_append, String.data_append]
    have hbar : ("|" : String).data = ['|'] := rfl
    rw [hbar, List.append_assoc, List.append_assoc]
    simp only [List.singleton_append]
    rw [sep_append_inj '|' _ _ _ _ h1 h2]
    rw [String.ext_iff, String.ext_iff]

/-! ### C2: merge semantics -/

/-- Unfolding equation of `dedupByKey` on a cons cell. -/
theorem dedupByKey_cons (r : Row) (rest : List Row) (seen : List String) :
    dedupByKey (r :: rest) seen =
      if rowKey r ∈ seen then dedupByKey rest seen
      else r :: dedupByKey rest (rowKey r :: seen) := rfl

/-- The filter `dedupByKey` keeps a subsequence of its input. -/
theorem dedupByKey_sublist : ∀ (l : List Row) (seen : List String),
    List.Sublist (dedupByKey l seen) l := by
  intro l
  induction l with
  | nil => intro seen; exact List.Sublist.refl _
  | cons r rest ih =>
    intro seen
    rw [dedupByKey_cons]
    by_cases h : rowKey r ∈ seen
    · rw [if_pos h]
      exact (ih seen).trans (List.sublist_cons_self _ _)
    · rw [if_neg h]
      exact (ih (rowKey r :: seen)).cons₂ r

/-- A key appears among the kept rows iff it appears in the input and is
not an already-seen key. -/
theorem mem_keys_dedupByKey : ∀ (l : List Row) (seen : List String) (k : String),
    k ∈ (dedupByKey l seen).map rowKey ↔ k ∈ l.map rowKey ∧ k ∉ seen := by
  intro l
  induction l with
  | nil => intro seen k; simp [dedupByKey]
  | cons r rest ih =>
    intro seen k
    rw [dedupByKey_cons]
    by_cases h : rowKey r ∈ seen
    · rw [if_pos h, ih]
      simp only [List.map_cons, List.mem_cons]
      constructor
      · rintro ⟨hk, hns⟩
        exact ⟨Or.inr hk, hns⟩
      · rintro ⟨hk | hk, hns⟩
        · subst hk
          exact absurd h hns
        · exact ⟨hk, hns⟩
    · rw [if_neg h]
      simp only [List.map_cons, List.mem_cons, ih]
      constructor
      · rintro (rfl | ⟨hk, hns⟩)
        · exact ⟨Or.inl rfl, h⟩
        · exact ⟨Or.inr hk, fun hs => hns (Or.inr hs)⟩
      · rintro ⟨rfl | hk, hns⟩
        · exact Or.inl rfl
        · rcases eq_or_ne k (rowKey r) with rfl | hrk
          · exact Or.inl rfl
          · refine Or.inr ⟨hk, fun hs => ?_⟩
            rcases hs with h3 | h3
            · exact hrk h3
            · exact hns h3

/-- The kept rows have pairwise distinct identity hashes. -/
theorem dedupByKey_nodup_keys : ∀ (l : List Row) (seen : List String),
    ((dedupByKey l seen).map rowKey).Nodup := by
  intro l
  induction l with
  | nil => intro seen; simp [dedupByKey]
  | cons r rest ih =>
    intro seen
    rw [dedupByKey_cons]
    by_cases h : rowKey r ∈ seen
    · rw [if_pos h]
      exact ih seen
    · rw [if_neg h]
      simp only [List.map_cons, List.nodup_cons]
      refine ⟨fun hk => ?_, ih _⟩
      exact ((mem_keys_dedupByKey _ _ _).mp hk).2 (List.mem_cons_self _ _)

/-- Every kept row is the first row of the input bearing its identity
hash. -/
theorem dedupByKey_find_first : ∀ (l : List Row) (seen : List String) (r : Row),
    r ∈ dedupByKey l seen →
      l.find? (fun x => rowKey x == rowKey r) = some r := by
  intro l
  induction l with
  | nil => intro seen r h; simp [dedupByKey] at h
  | cons hd rest ih =>
    intro seen r hmem
    rw [dedupByKey_cons] at hmem
    by_cases h : rowKey hd ∈ seen
    · rw [if_pos h] at hmem
      have hne : rowKey hd ≠ rowKey r := by
        intro he
        have := (mem_keys_dedupByKey rest seen (rowKey r)).mp
          (List.mem_map_of_mem rowKey hmem)
        exact this.2 (he ▸ h)
      rw [List.find?_cons_of_neg _ (by simpa using hne)]
      exact ih seen r hmem
    · rw [if_neg h] at hmem
      rcases List.mem_cons.mp hmem with he | hmem2
      · subst he
        rw [List.find?_cons_of_pos _ (by simp)]
      · have hne : rowKey hd ≠ rowKey r := by
          intro he
          have := (mem_keys_dedupByKey rest (rowKey hd :: seen) (rowKey r)).mp
            (List.mem_map_of_mem rowKey hmem2)
          exact this.2 (he ▸ List.mem_cons_self _ _)
        rw [List.find?_cons_of_neg _ (by simpa using hne)]
        exact ih _ r hmem2

/-- The filter `dedupByKey` only consults the seen set through membership. -/
theorem dedupByKey_congr_seen : ∀ (l : List Row) (s1 s2 : List String),
    (∀ k, k ∈ s1 ↔ k ∈ s2) → dedupByKey l s1 = dedupByKey l s2 := by
  intro l
  induction l with
  | nil => intro s1 s2 _; rfl
  | cons r rest ih =>
    intro s1 s2 hs
    rw [dedupByKey_cons, dedupByKey_cons]
    by_cases h : rowKey r ∈ s1
    · rw [if_pos h, if_pos ((hs _).mp h)]
      exact ih s1 s2 hs
    · rw [if_neg h, if_neg (fun hc => h ((hs _).mpr hc))]
      rw [ih (rowKey r :: s1) (rowKey r :: s2) (by
        intro k
        simp only [List.mem_cons]
        exact or_congr Iff.rfl (hs k))]

/-- Processing a concatenation: the right part is deduplicated against
all keys of the left part. -/
theorem dedupByKey_append : ∀ (xs ys : List Row) (seen : List String),
    dedupByKey (xs ++ ys) seen =
      dedupByKey xs seen ++ dedupByKey ys (xs.map rowKey ++ seen) := by
  intro xs
  induction xs with
  | nil => intro ys seen; rfl
  | cons r rest ih =>
    intro ys seen
    rw [List.cons_append, dedupByKey_cons, dedupByKey_cons]
    by_cases h : rowKey r ∈ seen
    · rw [if_pos h, if_pos h, ih]
      congr 1
      apply dedupByKey_congr_seen
      intro k
      simp only [List.map_cons, List.cons_append, List.mem_cons, List.mem_append]
      constructor
      · intro h2
        exact Or.inr h2
      · rintro (rfl | h2)
        · exact Or.inr h
        · exact h2
    · rw [if_neg h, if_neg h, ih, List.cons_append]
      congr 2
      apply dedupByKey_congr_seen
      intro k
      simp only [List.map_cons, List.cons_append, List.mem_cons, List.mem_append]
      tauto

/-- A list whose keys are distinct and disjoint from the seen set passes
through `dedupByKey` unchanged. -/
theorem dedupByKey_of_nodup : ∀ (l : List Row) (seen : List String),
    ((l.map rowKey).Nodup) → (∀ k ∈ l.map rowKey, k ∉ seen) →
      dedupByKey l seen = l := by
  intro l
  induction l with
  | nil => intro seen _ _; rfl
  | cons r rest ih =>
    intro seen hnd hdisj
    rw [dedupByKey_cons]
    have h : rowKey r ∉ seen := hdisj _ (by simp)
    rw [if_neg h]
    congr 1
    apply ih
    · exact (List.nodup_cons.mp (by simpa using hnd)).2
    · intro k hk
      intro hs
      rcases List.mem_cons.mp hs with h3 | h3
      · exact (List.nodup_cons.mp (by simpa using hnd)).1 (h3 ▸ hk)
      · exact hdisj k (by simp [hk]) h3

/-- A list all of whose keys are already seen deduplicates to nothing. -/
theorem dedupByKey_nil_of_subset : ∀ (l : List Row) (seen : List String),
    (∀ k ∈ l.map rowKey, k ∈ seen) → dedupByKey l seen = [] := by
  intro l
  induction l with
  | nil => intro seen _; rfl
  | cons r rest ih =>
    intro seen hsub
    rw [dedupByKey_cons]
    have h : rowKey r ∈ seen := hsub _ (by simp)
    rw [if_pos h]
    exact ih seen fun k hk => hsub k (by simp [hk])

/-- C2: `merge_with_existing new existing` walks `new` then `existing`
keeping the first occurrence per identity hash — the result is a
subsequence of `new ++ existing` (so new rows precede existing ones),
its identity hashes are pairwise distinct, each kept row is the first
row of `new ++ existing` with its hash, a hash survives iff it occurs in
`new` or in `existing`, and the merge is idempotent: re-merging the
result with the same `existing` rows returns it unchanged (hence with
the same set of identities, stable under any number of
re-applications). -/
theorem c2_merge_first_occurrence_and_idempotent :
    ∀ new_rows existing_rows : List Row,
      List.Sublist (merge_with_existing new_rows existing_rows) (new_rows ++ existing_rows) ∧
      ((merge_with_existing new_rows existing_rows).map rowKey).Nodup ∧
      (∀ r ∈ merge_with_existing new_rows existing_rows,
        (new_rows ++ existing_rows).find? (fun x => rowKey x == rowKey r) = some r) ∧
      (∀ k, k ∈ (merge_with_existing new_rows existing_rows).map rowKey ↔
        (k ∈ new_rows.map rowKey ∨ k ∈ existing_rows.map rowKey)) ∧
      merge_with_existing (merge_with_existing new_rows existing_rows) existing_rows =
        merge_with_existing new_rows existing_rows := by
  intro n e
  refine ⟨dedupByKey_sublist _ _, dedupByKey_nodup_keys _ _,
    fun r hr => dedupByKey_find_first _ _ r hr, ?_, ?_⟩
  · intro k
    rw [merge_with_existing, mem_keys_dedupByKey]
    simp [List.mem_append]
  · show merge_with_existing (merge_with_existing n e) e = merge_with_existing n e
    unfold merge_with_existing
    rw [dedupByKey_append]
    have h1 : dedupByKey (dedupByKey (n ++ e) []) [] = dedupByKey (n ++ e) [] :=
      dedupByKey_of_nodup _ _ (dedupByKey_nodup_keys _ _)
        (fun k _ => List.not_mem_nil k)
    have h2 : dedupByKey e ((dedupByKey (n ++ e) []).map rowKey ++ []) = [] := by
      apply dedupByKey_nil_of_subset
      intro k hk
      rw [List.append_nil, mem_keys_dedupByKey]
      refine ⟨?_, List.not_mem_nil k⟩
      rw [List.map_append, List.mem_append]
      exact Or.inr hk
    rw [h1, h2, List.append_nil]

/-! ### C3, C4: the heuristic sentiment classifier -/

/-- Evaluation: the default score of the `unknown` label is 0. -/
theorem default_score_unknown : DEFAULT_SENTIMENT_SCORE "unknown" = 0 := by
  with_unfolding_all decide

/-- Evaluation: the default score of the `neutral` label is 0.50. -/
theorem default_score_neutral : DEFAULT_SENTIMENT_SCORE "neutral" = 50/100 := by
  with_unfolding_all decide

/-- C3 (amended): on every input whose whitespace-normalized text is
longer than 3 characters, the classifier computes
`delta = positiveScore - negativeScore` over the lowered text and
returns positive when `delta > 0.35`, negative when `delta < -0.35`,
otherwise neutral when the text has alphabetic content (Latin
`[a-zA-Z]` or the Indic block range `U+0900-U+0D7F`) and unknown when it
has none; the score is `min(0.99, 0.55 + min(|delta|, 5) * 0.08)` for
positive/negative, 0.50 for neutral and 0.00 for unknown.  Texts whose
normalized form has at most 3 characters (the empty text included) are
short-circuited to unknown with score 0.00 before `delta` is consulted —
the one departure from the claim as written. -/
theorem c3_heuristic_delta_classification :
    ∀ text : String,
      heuristic_sentiment text =
        (let lowered := pyLowerL (normWsL text.toList)
         let delta := sentimentDelta lowered
         if lowered.length ≤ 3 then ("unknown", 0)
         else if delta > 35/100 then
           ("positive", min (99/100) (55/100 + min |delta| 5 * (8/100)))
         else if delta < -(35/100) then
           ("negative", min (99/100) (55/100 + min |delta| 5 * (8/100)))
         else if lowered.any neutralAlphaChar then ("neutral", 50/100)
         else ("unknown", 0)) := by
  intro text
  simp only [heuristic_sentiment]
  by_cases hempty : (normWsL text.toList).isEmpty = true
  · rw [if_pos hempty]
    have h0 : (pyLowerL (normWsL text.toList)).length ≤ 3 := by
      rw [List.isEmpty_iff] at hempty
      rw [pyLowerL, hempty]
      simp
    rw [if_pos h0, default_score_unknown]
  · rw [if_neg hempty]
    by_cases hlen : (pyLowerL (normWsL text.toList)).length ≤ 3
    · rw [if_pos hlen, if_pos hlen, default_score_unknown]
    · rw [if_neg hlen, if_neg hlen]
      by_cases hpos : sentimentDelta (pyLowerL (normWsL text.toList)) > 35/100
      · rw [if_pos hpos, if_pos hpos, if_pos (Or.inl rfl)]
        rfl
      · rw [if_neg hpos, if_neg hpos]
        by_cases hneg : sentimentDelta (pyLowerL (normWsL text.toList)) < -(35/100)
        · rw [if_pos hneg, if_pos hneg, if_pos (Or.inr rfl)]
          rfl
        · rw [if_neg hneg, if_neg hneg]
          by_cases halpha : (pyLowerL (normWsL text.toList)).any neutralAlphaChar = true
          · rw [if_pos halpha, if_pos halpha, if_neg (by decide), default_score_neutral]
          · rw [if_neg halpha, if_neg halpha, if_neg (by decide), default_score_unknown]

/-- C3, counterexample: for the input `"ok"` the claim's case analysis
prescribes neutral with score 0.50 (`delta = 0` is within the
thresholds and the text has alphabetic content), but the classifier's
length guard returns unknown with score 0.00. -/
theorem c3_short_text_not_neutral :
    heuristic_sentiment "ok" = ("unknown", 0) ∧
      ¬ sentimentDelta (pyLowerL (normWsL "ok".toList)) > 35/100 ∧
      ¬ sentimentDelta (pyLowerL (normWsL "ok".toList)) < -(35/100) ∧
      (pyLowerL (normWsL "ok".toList)).any neutralAlphaChar = true ∧
      (("unknown", (0 : ℚ)) : String × ℚ) ≠ ("neutral", 50/100) := by
  with_unfolding_all decide

/-- C4 (amended): the classifier applies two negation regex rules, each
adding 1.0 to the opposite pole ("not good"-class phrases add negative
weight, "not bad"-class phrases add positive weight); on the concrete
inputs: `"This is great, thank you!"` is positive with score
0.71 > 0.55, `"This is the worst, such a waste"` is negative with score
0.71 > 0.55, `"this is not good"` is negative (the added negative weight
and the word `"not"` dominate), text with no alphabetic content and no
script match is unknown with score 0.0 — but `"not bad at all"` is
negative with score 0.63, not positive: the rule's +1.0 positive weight
does not outweigh `"not"` and `"bad"` both counting as negative words. -/
theorem c4_negation_rules_and_examples :
    negSearch negFirstWords negRuleGoodWords none (pyLowerL (normWsL "this is not good".toList)) = true ∧
    negSearch negFirstWords negRuleBadWords none (pyLowerL (normWsL "not bad at all".toList)) = true ∧
    heuristic_sentiment "This is great, thank you!" = ("positive", 71/100) ∧
    (71 : ℚ)/100 > 55/100 ∧
    heuristic_sentiment "This is the worst, such a waste" = ("negative", 71/100) ∧
    heuristic_sentiment "this is not good" = ("negative", 63/100) ∧
    heuristic_sentiment "not bad at all" = ("negative", 63/100) ∧
    heuristic_sentiment "12345 !!" = ("unknown", 0) := by
  with_unfolding_all decide

/-- C4, counterexample: `"not bad at all"` classifies as negative, not
positive as the claim states. -/
theorem c4_not_bad_at_all_is_negative :
    (heuristic_sentiment "not bad at all").1 = "negative" ∧
      (heuristic_sentiment "not bad at all").1 ≠ "positive" := by
  with_unfolding_all decide

/-! ### C5: pagination stopping -/

/-- Page 0 of the good scenario: `rawA` is collected, token `"0"`
fetched. -/
theorem c5_step0 (m : Nat) :
    scrapeLoop oracleGood (m + 1) 0 ⟨[], [], 0, []⟩ =
      scrapeLoop oracleGood m 1 ⟨[rawA], [rawKey rawA], 0, ["0"]⟩ := rfl

/-- Page 1: `rawB` joins on the composite token. -/
theorem c5_step1 (m : Nat) :
    scrapeLoop oracleGood (m + 1) 1 ⟨[rawA], [rawKey rawA], 0, ["0"]⟩ =
      scrapeLoop oracleGood m 2
        ⟨[rawA, rawB], [rawKey rawA, rawKey rawB], 0, ["0", "0,1"]⟩ := rfl

/-- Page 2: `rawC` joins. -/
theorem c5_step2 (m : Nat) :
    scrapeLoop oracleGood (m + 1) 2
        ⟨[rawA, rawB], [rawKey rawA, rawKey rawB], 0, ["0", "0,1"]⟩ =
      scrapeLoop oracleGood m 3
        ⟨[rawA, rawB, rawC], [rawKey rawA, rawKey rawB, rawKey rawC], 0,
          ["0", "0,1", "0,2"]⟩ := rfl

/-- Page 3 is empty on both its tokens: the empty streak becomes 1 and
pagination continues — a single empty page does not stop it. -/
theorem c5_step3 (m : Nat) :
    scrapeLoop oracleGood (m + 1) 3
        ⟨[rawA, rawB, rawC], [rawKey rawA, rawKey rawB, rawKey rawC], 0,
          ["0", "0,1", "0,2"]⟩ =
      scrapeLoop oracleGood m 4
        ⟨[rawA, rawB, rawC], [rawKey rawA, rawKey rawB, rawKey rawC], 1,
          ["0", "0,1", "0,2", "0,3", "3"]⟩ := rfl

/-- Page 4 is empty too: the streak reaches 2 at a positive page index
and the loop aborts regardless of the remaining page budget. -/
theorem c5_step4 (m : Nat) :
    scrapeLoop oracleGood (m + 1) 4
        ⟨[rawA, rawB, rawC], [rawKey rawA, rawKey rawB, rawKey rawC], 1,
          ["0", "0,1", "0,2", "0,3", "3"]⟩ =
      ⟨[rawA, rawB, rawC], [rawKey rawA, rawKey rawB, rawKey rawC], 2,
        ["0", "0,1", "0,2", "0,3", "3", "0,4", "4"]⟩ := rfl

/-- C5 (amended): the empty-streak counter is driven by pages yielding
zero extracted records (a page at positive index whose records are all
already seen instead aborts at once — see the counterexample); on the
claim's concrete scenario the behaviour is as stated: non-empty pages
0, 1, 2 followed by empty pages 3 and 4 terminate with exactly pages
0-2's records collected, the single empty page 3 does not stop
pagination (page 4 is still fetched), and no token of page 5 is ever
requested, for every page cap above 5. -/
theorem c5_pagination_stopping_scenario :
    ∀ cap : Nat, 5 < cap →
      (scrape_comments_paginated oracleGood cap).collected = [rawA, rawB, rawC] ∧
      (scrape_comments_paginated oracleGood cap).fetched =
        ["0", "0,1", "0,2", "0,3", "3", "0,4", "4"] := by
  intro cap hcap
  obtain ⟨k, rfl⟩ : ∃ k, cap = k + 5 + 1 := ⟨cap - 6, by omega⟩
  have h : scrape_comments_paginated oracleGood (k + 5 + 1) =
      ⟨[rawA, rawB, rawC], [rawKey rawA, rawKey rawB, rawKey rawC], 2,
        ["0", "0,1", "0,2", "0,3", "3", "0,4", "4"]⟩ := by
    show scrapeLoop oracleGood (k + 5 + 1) 0 ⟨[], [], 0, []⟩ = _
    rw [c5_step0 (k + 5)]
    rw [(by omega : k + 5 = k + 4 + 1), c5_step1 (k + 4)]
    rw [(by omega : k + 4 = k + 3 + 1), c5_step2 (k + 3)]
    rw [(by omega : k + 3 = k + 2 + 1), c5_step3 (k + 2)]
    rw [(by omega : k + 2 = k + 1 + 1), c5_step4 (k + 1)]
  rw [h]
  exact ⟨rfl, rfl⟩

/-- C5, witness: the scenario at the source's default page cap 50. -/
theorem c5_pagination_stopping_scenario_witness :
    (scrape_comments_paginated oracleGood 50).collected = [rawA, rawB, rawC] ∧
      (scrape_comments_paginated oracleGood 50).fetched =
        ["0", "0,1", "0,2", "0,3", "3", "0,4", "4"] :=
  c5_pagination_stopping_scenario 50 (by omega)

/-- C5, counterexample: page 1 returns a record whose identity was
already collected on page 0 — per the claim this yields "zero new
records", should only raise the empty streak to 1, and with a cap of 50
pagination should continue and collect page 2's fresh record.  The code
instead aborts immediately: only page 0's record is collected and the
page 2 tokens are never fetched, so the streak does not govern
zero-new-record pages and a single such page does stop pagination. -/
theorem c5_duplicate_page_aborts :
    (scrape_comments_paginated oracleDup 50).collected = [rawA] ∧
      (scrape_comments_paginated oracleDup 50).fetched = ["0", "0,1"] ∧
      oracleDup "0,2" = [rawB] := by
  decide

/-! ### C6: refresh triggering -/

/-- Every step of the orchestrator keeps the mutual-exclusion
invariant: at most one active refresh, and none while the in-progress
flag is clear. -/
theorem orchStep_preserves_invariant (e : OrchEvent) (s : OrchState)
    (h1 : s.activeRefreshes ≤ 1)
    (h2 : s.inProgress = false → s.activeRefreshes = 0) :
    (orchStep e s).activeRefreshes ≤ 1 ∧
      ((orchStep e s).inProgress = false → (orchStep e s).activeRefreshes = 0) := by
  cases e with
  | trigger force stale =>
    simp only [orchStep, trigger_refresh_if_needed]
    split_ifs <;> exact ⟨h1, h2⟩
  | enter =>
    simp only [orchStep, threadEnterRefresh]
    split_ifs with hp hin
    · exact ⟨h1, h2⟩
    · exact ⟨h1, h2⟩
    · have h0 : s.activeRefreshes = 0 := h2 (by
        cases hb : s.inProgress
        · rfl
        · exact absurd hb hin)
      constructor
      · simp only [h0]
        omega
      · intro hfalse
        cases hfalse
  | finish =>
    simp only [orchStep, threadFinishRefresh]
    split_ifs with hz
    · exact ⟨h1, h2⟩
    · dsimp only
      constructor
      · omega
      · intro _
        omega

/-- C6 (amended): a trigger call made while the in-progress flag is set
returns `started = false` and spawns nothing (the state is unchanged);
and along every interleaving of trigger calls, thread entries and thread
completions from startup, at most one refresh per source is active at a
time (never active with the flag clear) — the mutual exclusion is
enforced by the entry critical section of the spawned refresh unit,
because the trigger critical section checks the flag and spawns but does
not set the flag (see the counterexample). -/
theorem c6_trigger_suppression_and_mutual_exclusion :
    (∀ (s : OrchState) (force stale : Bool), s.inProgress = true →
        trigger_refresh_if_needed force stale s = (false, s)) ∧
    (∀ events : List OrchEvent,
        (orchRun events orchInit).activeRefreshes ≤ 1 ∧
          ((orchRun events orchInit).inProgress = false →
            (orchRun events orchInit).activeRefreshes = 0)) := by
  constructor
  · intro s force stale h
    unfold trigger_refresh_if_needed
    rw [if_pos h]
  · have key : ∀ (events : List OrchEvent) (s : OrchState),
        s.activeRefreshes ≤ 1 → (s.inProgress = false → s.activeRefreshes = 0) →
          (orchRun events s).activeRefreshes ≤ 1 ∧
            ((orchRun events s).inProgress = false →
              (orchRun events s).activeRefreshes = 0) := by
      intro events
      induction events with
      | nil => intro s h1 h2; exact ⟨h1, h2⟩
      | cons e rest ih =>
        intro s h1 h2
        have hstep := orchStep_preserves_invariant e s h1 h2
        exact ih (orchStep e s) hstep.1 hstep.2
    intro events
    exact key events orchInit (by decide) (fun _ => rfl)

/-- C6, counterexample: from the idle startup state, a forced trigger
returns `started = true` yet leaves the in-progress flag clear (the
trigger critical section does not set it), so a second forced trigger
issued before the spawned unit runs also returns `started = true` —
refuting "the critical section checks the in-progress flag, sets it,
and spawns atomically", under which the second call would return
`started = false`. -/
theorem c6_double_trigger_both_start :
    (trigger_refresh_if_needed true true orchInit).1 = true ∧
      (trigger_refresh_if_needed true true orchInit).2.inProgress = false ∧
      (trigger_refresh_if_needed true true
        (trigger_refresh_if_needed true true orchInit).2).1 = true := by
  decide

/-! ### C7: refresh completion -/

/-- C7: a refresh entered on an idle source always ends with the
in-progress flag clear; on success it installs the merged rows, the new
timestamp and a clear error; on failure it keeps the previous rows and
timestamp untouched and records the error message. -/
theorem c7_refresh_always_returns_to_idle :
    ∀ s : SiteState, s.inProgress = false →
      ∀ (rows : List Row) (now msg : String),
        (refresh_site_state (.ok rows now) s).inProgress = false ∧
        (refresh_site_state (.ok rows now) s).comments = rows ∧
        (refresh_site_state (.ok rows now) s).lastUpdated = some now ∧
        (refresh_site_state (.ok rows now) s).lastError = none ∧
        (refresh_site_state (.error msg) s).inProgress = false ∧
        (refresh_site_state (.error msg) s).comments = s.comments ∧
        (refresh_site_state (.error msg) s).lastUpdated = s.lastUpdated ∧
        (refresh_site_state (.error msg) s).lastError = some msg := by
  intro s h rows now msg
  simp [refresh_site_state, h]

/-- C7, witness: the transition at a concrete idle state, one success
and one failure outcome. -/
theorem c7_refresh_always_returns_to_idle_witness :
    (refresh_site_state (.ok [] "2025-01-01T00:00:00+00:00")
        ⟨[], none, false, some "old"⟩).inProgress = false ∧
    (refresh_site_state (.ok [] "2025-01-01T00:00:00+00:00")
        ⟨[], none, false, some "old"⟩).comments = [] ∧
    (refresh_site_state (.ok [] "2025-01-01T00:00:00+00:00")
        ⟨[], none, false, some "old"⟩).lastUpdated =
      some "2025-01-01T00:00:00+00:00" ∧
    (refresh_site_state (.ok [] "2025-01-01T00:00:00+00:00")
        ⟨[], none, false, some "old"⟩).lastError = none ∧
    (refresh_site_state (.error "boom")
        ⟨[], none, false, some "old"⟩).inProgress = false ∧
    (refresh_site_state (.error "boom")
        ⟨[], none, false, some "old"⟩).comments =
      (⟨[], none, false, some "old"⟩ : SiteState).comments ∧
    (refresh_site_state (.error "boom")
        ⟨[], none, false, some "old"⟩).lastUpdated =
      (⟨[], none, false, some "old"⟩ : SiteState).lastUpdated ∧
    (refresh_site_state (.error "boom")
        ⟨[], none, false, some "old"⟩).lastError = some "boom" :=
  c7_refresh_always_returns_to_idle ⟨[], none, false, some "old"⟩ rfl []
    "2025-01-01T00:00:00+00:00" "boom"

/-! ### C8: summary truncation -/

/-- The first element `dropWhile` keeps falsifies the predicate. -/
theorem dropWhile_first_not {p : Char → Bool} :
    ∀ (l : List Char) (c : Char) (t : List Char),
      l.dropWhile p = c :: t → p c = false := by
  intro l
  induction l with
  | nil => intro c t h; cases h
  | cons a r ih =>
    intro c t h
    rw [List.dropWhile_cons] at h
    by_cases hp : p a = true
    · rw [if_pos hp] at h
      exact ih c t h
    · rw [if_neg hp] at h
      cases h
      exact Bool.eq_false_iff.mpr hp

/-- When `cs` contains a space, `cs` splits as the backed-off part, the
last space, and a space-free tail. -/
theorem dropFromLastSpace_split (cs : List Char) (h : ' ' ∈ cs) :
    ∃ tail : List Char,
      cs = dropFromLastSpace cs ++ ' ' :: tail ∧ ∀ x ∈ tail, x ≠ ' ' := by
  have hrev : ' ' ∈ cs.reverse := List.mem_reverse.mpr h
  have hne : cs.reverse.dropWhile (· ≠ ' ') ≠ [] := by
    intro hnil
    rw [List.dropWhile_eq_nil_iff] at hnil
    have := hnil ' ' hrev
    simp at this
  obtain ⟨c, t, hd⟩ : ∃ c t, cs.reverse.dropWhile (· ≠ ' ') = c :: t := by
    cases hdw : cs.reverse.dropWhile (· ≠ ' ') with
    | nil => exact absurd hdw hne
    | cons c t => exact ⟨c, t, rfl⟩
  have hc : c = ' ' := by
    have := dropWhile_first_not _ _ _ hd
    simpa using this
  subst hc
  have hbody : dropFromLastSpace cs = t.reverse := by
    unfold dropFromLastSpace
    rw [hd]
    rfl
  refine ⟨(cs.reverse.takeWhile (· ≠ ' ')).reverse, ?_, ?_⟩
  · have hsplit : cs.reverse.takeWhile (· ≠ ' ') ++ (' ' :: t) = cs.reverse := by
      rw [← hd]
      exact List.takeWhile_append_dropWhile _ _
    rw [hbody]
    conv_lhs => rw [← List.reverse_reverse cs, ← hsplit]
    rw [List.reverse_append, List.reverse_cons, List.append_assoc]
    rfl
  · intro x hx
    have hx2 : x ∈ cs.reverse.takeWhile (· ≠ ' ') := List.mem_reverse.mp hx
    have := List.mem_takeWhile_imp hx2
    simpa using this

/-- The over-length branch of `short_summary`, with the cut length
`220 - 3` evaluated. -/
theorem short_summary_long (text : String)
    (h : ¬ (normWsL text.toList).length ≤ 220) :
    short_summary text =
      ((if ((normWsL text.toList).take 217).contains ' ' then
          dropFromLastSpace ((normWsL text.toList).take 217)
        else (normWsL text.toList).take 217) ++ "...".toList).asString := by
  simp only [short_summary]
  rw [if_neg h]

/-- The backed-off cut of a 217-character slice containing a space is a
prefix of the text ending just before the slice's last space. -/
theorem dropFromLastSpace_take_props (cl : List Char)
    (h217 : (cl.take 217).length = 217) (hsp : ' ' ∈ cl.take 217) :
    ∃ j, j < 217 ∧ dropFromLastSpace (cl.take 217) = cl.take j ∧
      (dropFromLastSpace (cl.take 217)).length = j ∧
      cl.get? j = some ' ' ∧
      (∀ i, j < i → i < 217 → cl.get? i ≠ some ' ') := by
  set cut := cl.take 217 with hcut
  obtain ⟨tail, hsplit, htail⟩ := dropFromLastSpace_split cut hsp
  set body := dropFromLastSpace cut with hbody
  have hlen2 := congrArg List.length hsplit
  rw [List.length_append, List.length_cons] at hlen2
  have hjlt : body.length < 217 := by omega
  have hpre : List.IsPrefix body cl := by
    have h1 : List.IsPrefix body cut := ⟨' ' :: tail, hsplit.symm⟩
    have h2 : List.IsPrefix cut cl := by
      rw [hcut]
      exact ⟨cl.drop 217, List.take_append_drop 217 cl⟩
    exact h1.trans h2
  have hbodycl : body = cl.take body.length := List.prefix_iff_eq_take.mp hpre
  have hgetcut : cut.get? body.length = some ' ' := by
    rw [hsplit, List.get?_append_right (Nat.le_refl _)]
    simp
  have hget : cl.get? body.length = some ' ' := by
    rw [← List.get?_take hjlt, ← hcut]
    exact hgetcut
  refine ⟨body.length, hjlt, hbodycl, rfl, hget, ?_⟩
  intro i hji hi hcon
  rw [← List.get?_take hi, ← hcut, hsplit,
    List.get?_append_right (by omega)] at hcon
  rw [(by omega : i - body.length = i - body.length - 1 + 1)] at hcon
  rw [List.get?_cons_succ] at hcon
  exact htail ' ' (List.get?_mem hcon) rfl

/-- C8: the summary is the whitespace-normalized text verbatim when that
text has at most 220 characters; otherwise the summary is a prefix of
the normalized text of some length `j ≤ 217` followed by `"..."` — so at
most 220 characters in total — where, when the truncated 217-character
slice contains a space, position `j` holds the last space of that slice
(a word boundary: everything strictly between `j` and 217 is
space-free), and otherwise `j` is exactly 217. -/
theorem c8_summary_truncation :
    ∀ text : String,
      if (normWsL text.toList).length ≤ 220 then
        short_summary text = (normWsL text.toList).asString
      else
        ∃ j, j ≤ 217 ∧
          (short_summary text).data = (normWsL text.toList).take j ++ "...".toList ∧
          (short_summary text).length ≤ 220 ∧
          (' ' ∈ (normWsL text.toList).take 217 →
            (normWsL text.toList).get? j = some ' ' ∧
              ∀ i, j < i → i < 217 → (normWsL text.toList).get? i ≠ some ' ') ∧
          (' ' ∉ (normWsL text.toList).take 217 → j = 217) := by
  intro text
  by_cases hlen : (normWsL text.toList).length ≤ 220
  · rw [if_pos hlen]
    simp only [short_summary]
    rw [if_pos hlen]
  · rw [if_neg hlen]
    have hstrlen : ∀ l : List Char, (l.asString).length = l.length := fun l => rfl
    have hdots : ("...".toList).length = 3 := rfl
    have hcutlen : ((normWsL text.toList).take 217).length = 217 := by
      rw [List.length_take]
      omega
    have hsum := short_summary_long text hlen
    by_cases hsp : ' ' ∈ (normWsL text.toList).take 217
    · rw [if_pos (List.elem_iff.mpr hsp)] at hsum
      obtain ⟨j, hjlt, hbodyeq, hblen, hget, hafter⟩ :=
        dropFromLastSpace_take_props (normWsL text.toList) hcutlen hsp
      refine ⟨j, by omega, ?_, ?_, fun _ => ⟨hget, hafter⟩, fun hns => absurd hsp hns⟩
      · rw [hsum, ← hbodyeq]
        rfl
      · rw [hsum, hstrlen, List.length_append, hdots]
        omega
    · rw [if_neg (fun hcon => hsp (List.elem_iff.mp hcon))] at hsum
      refine ⟨217, Nat.le_refl _, ?_, ?_, fun hs => absurd hs hsp, fun _ => rfl⟩
      · rw [hsum]
        rfl
      · rw [hsum, hstrlen, List.length_append, hcutlen, hdots]

/-! ### C9: CSV round trip -/

/-- The map `normalize_sentiment` is the identity on the four canonical labels. -/
theorem normalize_sentiment_canonical (label : String)
    (h : label = "positive" ∨ label = "negative" ∨ label = "neutral" ∨
      label = "unknown") :
    normalize_sentiment label = label := by
  rcases h with rfl | rfl | rfl | rfl <;> with_unfolding_all decide

/-- Four-decimal formatting is exact on multiples of `1/10000`. -/
theorem formatScore4_exact (n : ℤ) :
    formatScore4 ((n : ℚ) / 10000) = (n : ℚ) / 10000 := by
  unfold formatScore4
  have h1 : ((n : ℚ) / 10000) * 10000 = (n : ℚ) := by field_simp
  rw [h1, Int.floor_int_add]
  norm_num

/-- C9: writing a corpus whose sentiment labels are canonical and whose
scores carry at most four decimal places, then reloading the written
table, returns the corpus unchanged — every field value and, in
particular, the list of identity hashes are preserved
(`sentiment_score` exactly, because 4-decimal formatting does not round
such scores). -/
theorem c9_csv_round_trip :
    ∀ rows : List Row,
      (∀ r ∈ rows,
        (r.sentiment = "positive" ∨ r.sentiment = "negative" ∨
          r.sentiment = "neutral" ∨ r.sentiment = "unknown") ∧
        ∃ n : ℤ, r.sentiment_score = (n : ℚ) / 10000) →
      load_rows_from_csv (save_rows_to_csv rows) = rows ∧
      (load_rows_from_csv (save_rows_to_csv rows)).map rowKey = rows.map rowKey := by
  intro rows h
  have hmain : load_rows_from_csv (save_rows_to_csv rows) = rows := by
    unfold load_rows_from_csv save_rows_to_csv
    rw [List.map_map]
    have hid : ∀ r ∈ rows, (loadRowFromCsv ∘ saveRowToCsv) r = r := by
      intro r hr
      obtain ⟨hcanon, n, hscore⟩ := h r hr
      show loadRowFromCsv (saveRowToCsv r) = r
      obtain ⟨a, ts, tx, lg, st, sc, sm⟩ := r
      unfold loadRowFromCsv saveRowToCsv
      simp only at hcanon hscore
      rw [normalize_sentiment_canonical st hcanon, hscore, formatScore4_exact]
    rw [List.map_congr_left hid]
    exact List.map_id' rows
  exact ⟨hmain, by rw [hmain]⟩

/-- C9, witness: a one-row corpus with a canonical label and a
4-decimal score round-trips unchanged. -/
theorem c9_csv_round_trip_witness :
    load_rows_from_csv (save_rows_to_csv
        [⟨"Asha", "1 day ago", "Great initiative", "English", "positive", 71/100,
          "Great initiative"⟩]) =
      [⟨"Asha", "1 day ago", "Great initiative", "English", "positive", 71/100,
        "Great initiative"⟩] ∧
    (load_rows_from_csv (save_rows_to_csv
        [⟨"Asha", "1 day ago", "Great initiative", "English", "positive", 71/100,
          "Great initiative"⟩])).map rowKey =
      ([⟨"Asha", "1 day ago", "Great initiative", "English", "positive", 71/100,
        "Great initiative"⟩] : List Row).map rowKey :=
  c9_csv_round_trip _ (by
    intro r hr
    rw [List.mem_singleton] at hr
    subst hr
    exact ⟨Or.inl rfl, 7100, by norm_num⟩)

/-! ### C10: loaded analysis fields are discarded and recomputed -/

/-- C10: `normalize_rows` consults only the author, timestamp and text
of each incoming row — replacing the stored `lang`, `sentiment`,
`sentiment_score` and `summary` by anything at all (any `f` preserving
the three raw fields) leaves its output unchanged — and every surviving
output row carries analysis fields recomputed from its text through
`analyze` (the heuristic-plus-external `analyze_comment`): the stored
values are discarded, never reused. -/
theorem c10_normalize_rows_recomputes :
    ∀ (analyze : String → Analysis) (rows : List Row) (f : Row → Row),
      (∀ r : Row, (f r).author = r.author ∧ (f r).timestamp = r.timestamp ∧
        (f r).text = r.text) →
      (normalize_rows analyze (rows.map f) = normalize_rows analyze rows ∧
       ∀ out ∈ normalize_rows analyze rows,
         out.sentiment = normalize_sentiment (analyze out.text).sentiment ∧
         out.sentiment_score = (analyze out.text).sentiment_score ∧
         out.lang = (let v := normalize_language_name (analyze out.text).lang
                     if v = "" then "Unknown" else v) ∧
         out.summary = short_summary (analyze out.text).summary) := by
  intro analyze rows f hf
  constructor
  · unfold normalize_rows
    rw [List.filterMap_map]
    apply List.filterMap_congr
    intro r _
    obtain ⟨ha, ht, hx⟩ := hf r
    simp only [Function.comp_apply]
    rw [ha, ht, hx]
  · intro out hout
    unfold normalize_rows at hout
    rw [List.mem_filterMap] at hout
    obtain ⟨r, hr, heq⟩ := hout
    simp only at heq
    by_cases hjunk : is_junk_or_boilerplate (fix_mojibake r.text) = true
    · rw [if_pos hjunk] at heq
      cases heq
    · rw [if_neg hjunk] at heq
      have heq2 := Option.some.inj heq
      subst heq2
      exact ⟨rfl, rfl, rfl, rfl⟩

/-- C10, witness: the recomputation property at a concrete analyzer and
a one-row corpus whose stored analysis fields are junk values, with the
identity as the raw-field-preserving rewrite. -/
theorem c10_normalize_rows_recomputes_witness :
    (normalize_rows (fun t => ⟨"neutral", 1/2, "English", t⟩)
        (([⟨"Asha", "1 day ago", "Great initiative by the ministry", "xx", "zz", 0,
          "yy"⟩] : List Row).map id) =
      normalize_rows (fun t => ⟨"neutral", 1/2, "English", t⟩)
        [⟨"Asha", "1 day ago", "Great initiative by the ministry", "xx", "zz", 0,
          "yy"⟩]) ∧
    (∀ out ∈ normalize_rows (fun t => ⟨"neutral", 1/2, "English", t⟩)
        ([⟨"Asha", "1 day ago", "Great initiative by the ministry", "xx", "zz", 0,
          "yy"⟩] : List Row),
      out.sentiment =
        normalize_sentiment ((fun t => (⟨"neutral", 1/2, "English", t⟩ : Analysis))
          out.text).sentiment ∧
      out.sentiment_score =
        ((fun t => (⟨"neutral", 1/2, "English", t⟩ : Analysis)) out.text).sentiment_score ∧
      out.lang =
        (let v := normalize_language_name
          ((fun t => (⟨"neutral", 1/2, "English", t⟩ : Analysis)) out.text).lang
         if v = "" then "Unknown" else v) ∧
      out.summary =
        short_summary ((fun t => (⟨"neutral", 1/2, "English", t⟩ : Analysis))
          out.text).summary) :=
  c10_normalize_rows_recomputes (fun t => ⟨"neutral", 1/2, "English", t⟩)
    [⟨"Asha", "1 day ago", "Great initiative by the ministry", "xx", "zz", 0, "yy"⟩]
    id (fun _ => ⟨rfl, rfl, rfl⟩)

end EConsult
